import Mathlib

/-!
Verification of the search and ranking subsystem of the Stepper knowledge-base
assistant (src/lib/search.js).  The JavaScript source is shallowly embedded:
strings are sequences of characters (`List Char` under a `String` wrapper),
scores are exact rationals (every weight in the source is a decimal literal),
and the single network call of the rerank client is modelled by an explicit
`FetchOutcome` value together with an abstract JSON-parsing function, so that
the orchestrator's failure handling is a pure case analysis.
-/

/-! ### Data model (search.js JSDoc: article records) -/

structure Step where
  title : String
  bodyHtml : String
deriving DecidableEq, Repr

structure Guide where
  id : String
  title : String
  summary : String
  tags : List String
  steps : List Step
  content : String
deriving DecidableEq, Repr

inductive HighlightField where
  | title
  | content
deriving DecidableEq, Repr

structure Highlight where
  field : HighlightField
  text : String
deriving DecidableEq, Repr

/-- Internal record pushed by `keywordSearch` for each matching article. -/
structure ScoredGuide where
  article : Guide
  score : ℚ
  highlights : List Highlight
deriving DecidableEq, Repr

/-- Settings object consumed by `searchArticles` (LLM configuration). -/
structure Settings where
  enableLLMSearch : Bool
  llmEndpoint : String
  llmApiKey : String
  llmModel : String
deriving DecidableEq, Repr

/-! ### Character-level string helpers (JS built-ins used by search.js) -/

/-- Embeds `String.prototype.toLowerCase`. -/
def lowerS (s : String) : String := ⟨s.data.map Char.toLower⟩

/-- Embeds `String.prototype.trim`: drop leading and trailing whitespace. -/
def trimChars (l : List Char) : List Char :=
  ((l.dropWhile Char.isWhitespace).reverse.dropWhile Char.isWhitespace).reverse

/-- String wrapper for `trimChars`. -/
def trimS (s : String) : String := ⟨trimChars s.data⟩

/-- Index of the first occurrence of `needle` in the list, as in
`String.prototype.indexOf` (the empty needle matches at index 0). -/
def firstIdx (needle : List Char) : List Char → Option Nat
  | [] => if needle.isEmpty then some 0 else none
  | c :: rest =>
    if needle.isPrefixOf (c :: rest) then some 0
    else (firstIdx needle rest).map (· + 1)

/-- Embeds `hay.includes(needle)`. -/
def containsS (hay needle : String) : Bool := (firstIdx needle.data hay.data).isSome

/-- Embeds `hay.startsWith(pre)`. -/
def startsWithS (hay pre : String) : Bool := pre.data.isPrefixOf hay.data

/-! ### Tokenizer / markup stripper (search.js `tokenize`, `stripHtml`) -/

/-- Left bracket and right bracket characters of the delimiter class. -/
def lbrace : Char := Char.ofNat 0x7b

/-- Right brace character of the delimiter class. -/
def rbrace : Char := Char.ofNat 0x7d

/-- Membership in the regex class used by `tokenize`. -/
def isDelimChar (c : Char) : Bool :=
  c.isWhitespace || c = '-' || c = '_' || c = '.' || c = ',' || c = ';' ||
  c = ':' || c = '!' || c = '?' || c = '(' || c = ')' || c = '[' || c = ']' ||
  c = lbrace || c = rbrace

/-- Splits a character list at delimiter characters.  Runs of delimiters give
extra empty pieces compared to splitting on maximal runs, but `tokenize`
filters out all pieces of length at most 2, so the resulting token list is
the one the source's run-based split produces. -/
def splitRuns : List Char → List (List Char)
  | [] => [[]]
  | c :: rest =>
    let r := splitRuns rest
    if isDelimChar c then [] :: r
    else
      match r with
      | [] => [[c]]
      | h :: t => (c :: h) :: t

/-- Embeds `tokenize`: lowercase, split on whitespace and punctuation, keep
only tokens of length greater than 2. -/
def tokenize (text : String) : List String :=
  ((splitRuns (lowerS text).data).map (fun l => (⟨l⟩ : String))).filter
    (fun t => t.length > 2)

/-- Tag-removal scanner.  The source replaces every match of an
angle-bracket tag span (an opening angle bracket, any characters other than
a closing angle bracket, then a closing angle bracket) by one space; an
opening angle bracket with no later closing one matches nothing and the rest
of the text is kept verbatim. -/
def removeTagsAux : Bool → List Char → List Char
  | _, [] => []
  | true, c :: rest =>
    if c = '>' then ' ' :: removeTagsAux false rest else removeTagsAux true rest
  | false, c :: rest =>
    if c = '<' then
      (if rest.contains '>' then removeTagsAux true rest else c :: rest)
    else c :: removeTagsAux false rest

/-- Collapses runs of spaces to a single space (used after mapping every
whitespace character to a space). -/
def squeezeSpaces : List Char → List Char
  | [] => []
  | [c] => [c]
  | a :: b :: rest =>
    if a = ' ' && b = ' ' then squeezeSpaces (b :: rest)
    else a :: squeezeSpaces (b :: rest)

/-- Embeds `stripHtml`: replace tag spans by a space, collapse whitespace
runs to one space, trim. -/
def stripHtml (html : String) : String :=
  ⟨trimChars (squeezeSpaces
    ((removeTagsAux false html.data).map (fun c => if c.isWhitespace then ' ' else c)))⟩

/-! ### Occurrence counting and regex escaping (scorer step-body bonus) -/

/-- Fuel-driven scan counting non-overlapping occurrences left to right;
`fuel` at least the haystack length makes the scan exhaustive. -/
def countOccsAux (needle : List Char) : Nat → List Char → Nat
  | 0, _ => 0
  | _ + 1, [] => 0
  | fuel + 1, c :: rest =>
    if needle.isPrefixOf (c :: rest) then
      1 + countOccsAux needle fuel (List.drop needle.length (c :: rest))
    else countOccsAux needle fuel rest

/-- Number of non-overlapping literal occurrences of `needle` in `hay`, the
count produced by the source's global regex match after every metacharacter
of the query has been escaped.  An empty pattern matches at every position,
giving length-plus-one matches, as the global empty regex does. -/
def countOccs (needle hay : List Char) : Nat :=
  if needle.isEmpty then hay.length + 1 else countOccsAux needle hay.length hay

/-- Characters escaped by the source before building its occurrence-count
regex: the fourteen regex metacharacters. -/
def isRegexMeta (c : Char) : Bool :=
  c = '.' || c = '*' || c = '+' || c = '?' || c = '^' || c = '$' ||
  c = lbrace || c = rbrace || c = '(' || c = ')' || c = '|' || c = '[' ||
  c = ']' || c = '\\'

/-- Embeds the escaping step: a backslash is put before every metacharacter. -/
def escapeRegexChars : List Char → List Char
  | [] => []
  | c :: rest =>
    if isRegexMeta c then '\\' :: c :: escapeRegexChars rest
    else c :: escapeRegexChars rest

/-- Reads back a regex pattern that denotes a literal string: a backslash
escapes the following character, and any unescaped metacharacter means the
pattern is not a literal one. -/
def litPatternChars : List Char → Option (List Char)
  | [] => some []
  | c :: rest =>
    if c = '\\' then
      match rest with
      | [] => none
      | d :: rest' => (litPatternChars rest').map (d :: ·)
    else if isRegexMeta c then none
    else (litPatternChars rest).map (c :: ·)

/-! ### Relevance scorer (search.js `calculateRelevanceScore`) -/

/-- Contribution of one step: 2 for a step-title match, and for a stripped
step body containing the query, 1 plus the occurrence bonus
`min (occurrences * 0.5) 3`.  The source counts occurrences with a global
regex built from the metacharacter-escaped query, which matches exactly the
literal occurrences counted by `countOccs`. -/
def stepScore (query : String) (step : Step) : ℚ :=
  (if containsS (lowerS step.title) query then 2 else 0) +
  (let stepBody := lowerS (stripHtml step.bodyHtml)
   if containsS stepBody query then
     1 + min ((countOccs query.data stepBody.data : ℚ) * 0.5) 3
   else 0)

/-- Embeds `calculateRelevanceScore(query, queryTokens, article)`. -/
def calculateRelevanceScore (query : String) (queryTokens : List String)
    (article : Guide) : ℚ :=
  let title := lowerS article.title
  let titleScore : ℚ :=
    if containsS title query then
      (if startsWithS title query then 10 + 5 else 10)
    else 0
  let tagsScore : ℚ :=
    (article.tags.map (fun tag =>
      let tagLower := lowerS tag
      (if containsS tagLower query then (5 : ℚ) else 0) +
      2 * ((queryTokens.filter (fun token => containsS tagLower token)).length : ℚ))).sum
  let summary := lowerS article.summary
  let summaryScore : ℚ := if containsS summary query then 4 else 0
  let stepsScore : ℚ := (article.steps.map (stepScore query)).sum
  let tokenScore : ℚ :=
    if queryTokens.length > 1 then
      (queryTokens.map (fun token =>
        (if containsS title token then (1 : ℚ) else 0) +
        (if containsS summary token then (0.5 : ℚ) else 0) +
        ((article.steps.filter (fun step =>
            containsS (lowerS (stripHtml step.bodyHtml)) token)).length : ℚ) * 0.3)).sum
    else 0
  titleScore + tagsScore + summaryScore + stepsScore + tokenScore

/-! ### Highlights (search.js `getHighlights`) -/

/-- Embeds `getHighlights(query, article)`: a title highlight when the
lowercased title contains the query, then one content snippet around the
first occurrence of the query in the lowercased content, with 40 characters
of context on each side and ellipsis markers for truncated sides. -/
def getHighlights (query : String) (article : Guide) : List Highlight :=
  let titleHighlights : List Highlight :=
    if containsS (lowerS article.title) query then
      [⟨HighlightField.title, article.title⟩]
    else []
  let content := article.content
  match firstIdx query.data (lowerS content).data with
  | none => titleHighlights
  | some index =>
    let cdata := content.data
    let start := index - 40
    let stop := min cdata.length (index + query.data.length + 40)
    let snippet0 := (cdata.drop start).take (stop - start)
    let snippet1 :=
      if 0 < start then '.' :: '.' :: '.' :: snippet0 else snippet0
    let snippet2 :=
      if stop < cdata.length then snippet1 ++ ['.', '.', '.'] else snippet1
    titleHighlights ++ [⟨HighlightField.content, (⟨snippet2⟩ : String)⟩]

/-! ### Keyword ranker (search.js `keywordSearch`) -/

/-- Embeds `keywordSearch(query, articles)`: empty or whitespace-only
queries and empty collections give the empty list; otherwise each article is
scored, articles with positive score are kept, and the survivors are sorted
by score descending with a stable sort (the ECMAScript `Array.prototype.sort`
is stable, and the comparator compares scores only). -/
def keywordSearch (query : String) (articles : List Guide) : List Guide :=
  if trimS query = "" then []
  else if articles.isEmpty then []
  else
    let normalizedQuery := trimS (lowerS query)
    let queryTokens := tokenize query
    let results := articles.filterMap (fun article =>
      let score := calculateRelevanceScore normalizedQuery queryTokens article
      if 0 < score then
        some (⟨article, score, getHighlights normalizedQuery article⟩ : ScoredGuide)
      else none)
    (results.mergeSort (fun x y => decide (y.score ≤ x.score))).map (·.article)

/-! ### Rerank client (search.js `llmRerank`) -/

/-- Outcome of the single network call made by the rerank client: either the
ten-second timer fired first, or a response arrived with an HTTP success
flag and, when the body had the expected chat-completion shape, the
assistant's text content. -/
inductive FetchOutcome where
  | timeout
  | response (ok : Bool) (content : Option String)
deriving DecidableEq, Repr

/-- Result of extracting and parsing a JSON array of ids from the model's
text: a well-formed array of ids, a well-formed JSON value that is not an
array, or unparseable text. -/
inductive ParsedJson where
  | arr (ids : List String)
  | nonArray
  | malformed
deriving DecidableEq, Repr

/-- Embeds `new Map(candidates.map(a => [a.id, a]))`: inserting an entry
whose key is present overwrites the value in place, otherwise the entry is
appended. -/
def mapSet (m : List (String × Guide)) (k : String) (v : Guide) :
    List (String × Guide) :=
  if m.any (fun e => e.1 == k) then
    m.map (fun e => if e.1 == k then (k, v) else e)
  else m ++ [(k, v)]

/-- Builds the id-to-article map of `llmRerank`. -/
def mkIdMap (gs : List Guide) : List (String × Guide) :=
  gs.foldl (fun m a => mapSet m a.id a) []

/-- Walks the model's id list over the map: an id present in the map moves
the corresponding article to the picked list and deletes the entry (so
duplicate ids are skipped); an unknown id is skipped.  Returns the picked
articles and the remaining map. -/
def pickByIds : List String → List (String × Guide) →
    List Guide × List (String × Guide)
  | [], m => ([], m)
  | id :: rest, m =>
    match m.find? (fun e => e.1 == id) with
    | some e =>
      let p := pickByIds rest (m.eraseP (fun e => e.1 == id))
      (e.2 :: p.1, p.2)
    | none => pickByIds rest m

/-- Embeds the reorder phase of `llmRerank`: picked articles in the model's
order, then the map's remaining articles in their original order. -/
def reorderByIds (candidates : List Guide) (ids : List String) : List Guide :=
  let m := mkIdMap candidates
  let p := pickByIds ids m
  p.1 ++ p.2.map (·.2)

/-- Embeds `llmRerank(query, articles, settings)` given the outcome of its
network call and an abstract parser standing for the source's bracket-span
extraction plus `JSON.parse`.  Every failure path of the source throws; here
each becomes an `Except.error` with the source's message. -/
def llmRerank (parse : String → ParsedJson) (_query : String)
    (articles : List Guide) (_settings : Settings) (outcome : FetchOutcome) :
    Except String (List Guide) :=
  if articles.isEmpty then Except.ok []
  else
    let candidateArticles := articles.take 20
    match outcome with
    | FetchOutcome.timeout => Except.error "LLM request timed out"
    | FetchOutcome.response ok content =>
      if !ok then Except.error "LLM API returned a non-success status"
      else
        match content with
        | none => Except.error "Unexpected LLM response format"
        | some s =>
          match parse s with
          | ParsedJson.malformed => Except.error "Failed to parse LLM response as JSON"
          | ParsedJson.nonArray => Except.error "LLM did not return an array"
          | ParsedJson.arr ids => Except.ok (reorderByIds candidateArticles ids)

/-! ### Orchestrator (search.js `searchArticles`) -/

/-- Embeds `searchArticles(query, articles, settings)`: empty queries return
the collection unchanged, empty collections return the empty list, and
otherwise the keyword ranking is computed and, when the LLM stage is enabled
and both endpoint and key are non-empty, reranking is attempted with every
failure falling back to the keyword list; the returned list is truncated to
the top 10.  The function is total: no failure of the rerank stage escapes. -/
def searchArticles (parse : String → ParsedJson) (query : String)
    (articles : List Guide) (settings : Settings) (outcome : FetchOutcome) :
    List Guide :=
  if trimS query = "" then articles
  else if articles.isEmpty then []
  else
    let keywordResults := keywordSearch query articles
    if settings.enableLLMSearch && !(settings.llmEndpoint == "") &&
        !(settings.llmApiKey == "") then
      match llmRerank parse query keywordResults settings outcome with
      | Except.ok llmResults => llmResults.take 10
      | Except.error _ => keywordResults.take 10
    else keywordResults.take 10

/-- Failure of the rerank stage, enumerating every failure mode of
`llmRerank`: timeout, non-success HTTP status, unexpected response shape,
unparseable content, or a parsed value that is not an array. -/
def rerankFailure (parse : String → ParsedJson) : FetchOutcome → Prop
  | FetchOutcome.timeout => True
  | FetchOutcome.response ok content =>
    ok = false ∨ content = none ∨
      ∃ s, content = some s ∧
        (parse s = ParsedJson.malformed ∨ parse s = ParsedJson.nonArray)

/-! ### Concrete articles used in examples -/

/-- Guide of the spec's score-composition example. -/
def pwGuide : Guide :=
  { id := "g1"
    title := "Password Reset Procedure"
    summary := "Step-by-step guide to reset user passwords"
    tags := ["password", "active-directory"]
    steps := [⟨"Verify User Identity", "<p>password password</p>"⟩]
    content := "" }

/-- Guide whose only populated field is a single matching tag. -/
def tagOnlyGuide : Guide :=
  { id := "g2", title := "", summary := "", tags := ["password"],
    steps := [], content := "" }

/-- Candidate guides of the spec's reorder-correctness example. -/
def guideA : Guide :=
  { id := "a", title := "A", summary := "", tags := [], steps := [], content := "" }

/-- Second candidate of the reorder example. -/
def guideB : Guide :=
  { id := "b", title := "B", summary := "", tags := [], steps := [], content := "" }

/-- Third candidate of the reorder example. -/
def guideC : Guide :=
  { id := "c", title := "C", summary := "", tags := [], steps := [], content := "" }

/-- Guide used to exercise content-snippet extraction. -/
def contentGuide : Guide :=
  { id := "g3", title := "", summary := "", tags := [], steps := [],
    content := "xyz pass abc" }

/-- Score of an article as computed inside `keywordSearch`: the query is
lowercased and trimmed, tokenization is applied to the raw query, and the
scorer is evaluated on the pair. -/
def scoreOf (query : String) (article : Guide) : ℚ :=
  calculateRelevanceScore (trimS (lowerS query)) (tokenize query) article

/-- Snippet demanded by the specification, in its own words: up to 40
characters of context before the first match, the matched span, up to 40
characters after it, with an ellipsis marker prefixed when text before the
match was cut off and suffixed when text after it was cut off. -/
def snippetSpec (q content : List Char) (index : Nat) : List Char :=
  (if 40 < index then ['.', '.', '.'] else []) ++
  ((content.take index).drop (index - 40) ++
   ((content.drop index).take q.length ++
    (content.drop (index + q.length)).take 40)) ++
  (if index + q.length + 40 < content.length then ['.', '.', '.'] else [])

/-! ## Theorems -/

/-! ### Generic helper lemmas -/

/-- The empty string contains only the empty substring. -/
lemma containsS_empty_left {q : String} (hq : q ≠ "") : containsS "" q = false := by
  have hd : q.data ≠ [] := by
    intro h
    apply hq
    cases q with
    | mk d => cases h; rfl
  simp [containsS, firstIdx, List.isEmpty_iff, hd]

/-- A score list built by `keywordSearch`'s push loop is the mapped filter of
the collection by score positivity. -/
lemma filterMap_scored (sc : Guide → ℚ) (hl : Guide → List Highlight)
    (articles : List Guide) :
    articles.filterMap (fun article =>
      if 0 < sc article then
        some (⟨article, sc article, hl article⟩ : ScoredGuide)
      else none) =
    (articles.filter (fun a => decide (0 < sc a))).map
      (fun a => (⟨a, sc a, hl a⟩ : ScoredGuide)) := by
  induction articles with
  | nil => rfl
  | cons a rest ih =>
    by_cases h : 0 < sc a
    · simp [List.filterMap_cons, h, ih]
    · simp [List.filterMap_cons, h, ih]

/-- Stability of `mergeSort`, stated through filters: the subsequence of
elements satisfying a predicate that forces mutual comparability is
untouched by the sort. -/
lemma filter_mergeSort_stable {α : Type} (le : α → α → Bool)
    (htrans : ∀ a b c, le a b → le b c → le a c)
    (htotal : ∀ a b, le a b || le b a)
    (p : α → Bool) (hp : ∀ a b, p a → p b → le a b) (l : List α) :
    (l.mergeSort le).filter p = l.filter p := by
  have hpair : (l.filter p).Pairwise (fun a b => le a b) := by
    apply List.pairwise_of_forall_mem_list
    intro a ha b hb
    exact hp a b (List.of_mem_filter ha) (List.of_mem_filter hb)
  have h1 : List.Sublist (l.filter p) (l.mergeSort le) :=
    List.sublist_mergeSort htrans htotal hpair (List.filter_sublist l)
  have h2 : List.Sublist (l.filter p) ((l.mergeSort le).filter p) := by
    have h3 := h1.filter p
    rwa [List.filter_filter, (by
      funext a; cases hpa : p a <;> simp [hpa] :
        (fun a => p a && p a) = p)] at h3
  have hlen : ((l.mergeSort le).filter p).length = (l.filter p).length :=
    ((l.mergeSort_perm le).filter p).length_eq
  exact (h2.eq_of_length hlen.symm).symm

/-- The keyword ranker on an empty collection gives the empty list. -/
lemma keywordSearch_nil_of_empty (query : String) (articles : List Guide)
    (hA : articles.isEmpty) : keywordSearch query articles = [] := by
  rw [keywordSearch]
  split
  · rfl
  · simp [hA]

/-! ### C5 — keyword ranker on empty queries -/

/-- C5 counterexample: the keyword ranker applied to a whitespace-only query
does not return the input collection unchanged; it returns the empty list. -/
theorem keywordSearch_empty_query_not_identity :
    keywordSearch " " [pwGuide] = [] ∧ keywordSearch " " [pwGuide] ≠ [pwGuide] := by
  constructor
  · rw [keywordSearch]
    simp +decide
  · rw [keywordSearch]
    simp +decide

/-- C5 (amended): for every guide collection, the keyword ranker applied to
an empty or whitespace-only query returns the empty list; the identity
transform on empty queries is implemented one level up, by the orchestrator
`searchArticles`. -/
theorem keywordSearch_empty_query_eq_nil (query : String) (articles : List Guide)
    (hq : trimS query = "") : keywordSearch query articles = [] := by
  rw [keywordSearch, if_pos hq]

/-- C5 witness: the amended statement evaluated at a whitespace query and a
one-guide collection. -/
theorem keywordSearch_empty_query_eq_nil_witness :
    keywordSearch " " [pwGuide] = [] :=
  keywordSearch_empty_query_eq_nil " " [pwGuide] (by decide)

/-! ### C10 — orchestrator identity on empty queries -/

/-- C10: for every configuration, parser, and network outcome, the
orchestrator applied to an empty or whitespace-only query returns the whole
input collection, untruncated, without consulting the rerank stage. -/
theorem searchArticles_empty_query_identity (parse : String → ParsedJson)
    (query : String) (articles : List Guide) (settings : Settings)
    (outcome : FetchOutcome) (hq : trimS query = "") :
    searchArticles parse query articles settings outcome = articles := by
  rw [searchArticles, if_pos hq]

/-- C10 witness: an 11-guide collection with a fully enabled rerank
configuration is returned whole on the empty query. -/
theorem searchArticles_empty_query_identity_witness :
    searchArticles (fun _ => ParsedJson.malformed) "" (List.replicate 11 pwGuide)
      ⟨true, "https://api.example", "key", "gpt-3.5-turbo"⟩ FetchOutcome.timeout =
      List.replicate 11 pwGuide :=
  searchArticles_empty_query_identity _ "" _ _ _ (by decide)

/-! ### C7 — rerank skipped on incomplete configuration -/

/-- C7: with reranking enabled but an empty endpoint or an empty API key,
the orchestrator returns exactly the keyword-ranked top 10; the result does
not depend on the network outcome or on the parser, so no network I/O is
consulted, and the incomplete configuration is not surfaced as an error. -/
theorem searchArticles_skips_rerank_on_incomplete_config
    (parse : String → ParsedJson) (query : String) (articles : List Guide)
    (settings : Settings) (outcome : FetchOutcome)
    (hq : trimS query ≠ "")
    (hcfg : settings.llmEndpoint = "" ∨ settings.llmApiKey = "") :
    searchArticles parse query articles settings outcome =
      (keywordSearch query articles).take 10 := by
  rw [searchArticles, if_neg hq]
  by_cases hA : articles.isEmpty
  · rw [if_pos hA, keywordSearch_nil_of_empty query articles hA]
    rfl
  · rw [if_neg hA]
    have hcond : (settings.enableLLMSearch && !(settings.llmEndpoint == "") &&
        !(settings.llmApiKey == "")) = false := by
      rcases hcfg with h | h <;> simp [h]
    rw [hcond]
    simp

/-- C7 witness: enabled configuration with empty endpoint and key, on a
concrete query and collection. -/
theorem searchArticles_skips_rerank_on_incomplete_config_witness :
    searchArticles (fun _ => ParsedJson.arr ["g1"]) "password" [pwGuide]
      ⟨true, "", "", "gpt-3.5-turbo"⟩ (FetchOutcome.response true (some "[]")) =
      (keywordSearch "password" [pwGuide]).take 10 :=
  searchArticles_skips_rerank_on_incomplete_config _ "password" [pwGuide] _ _
    (by decide) (Or.inl rfl)

/-! ### C4 — fallback to keyword results on every rerank failure -/

/-- C4: with a non-empty query and a complete, enabled rerank configuration,
every failure mode of the rerank stage — timeout, non-success HTTP status,
unexpected response shape, unparseable content, or a parsed value that is
not an array — makes the orchestrator return the keyword-ranked list
truncated to the top 10.  `searchArticles` is a total function, so no
failure escapes as an exception. -/
theorem searchArticles_fallback_on_rerank_failure
    (parse : String → ParsedJson) (query : String) (articles : List Guide)
    (settings : Settings) (outcome : FetchOutcome)
    (hq : trimS query ≠ "")
    (hen : settings.enableLLMSearch = true)
    (hep : settings.llmEndpoint ≠ "") (hak : settings.llmApiKey ≠ "")
    (hfail : rerankFailure parse outcome) :
    searchArticles parse query articles settings outcome =
      (keywordSearch query articles).take 10 := by
  rw [searchArticles, if_neg hq]
  by_cases hA : articles.isEmpty
  · rw [if_pos hA, keywordSearch_nil_of_empty query articles hA]
    rfl
  · rw [if_neg hA]
    have hcond : (settings.enableLLMSearch && !(settings.llmEndpoint == "") &&
        !(settings.llmApiKey == "")) = true := by
      simp [hen, hep, hak]
    rw [hcond]
    by_cases hkw : (keywordSearch query articles).isEmpty
    · have hnil : keywordSearch query articles = [] := List.isEmpty_iff.mp hkw
      simp only [llmRerank, if_pos hkw]
      simp [hnil]
    · simp only [llmRerank, if_neg hkw]
      cases outcome with
      | timeout => simp
      | response ok content =>
        rcases hfail with hok | hcn | ⟨s, hcs, hp⟩
        · subst hok
          simp
        · subst hcn
          cases ok <;> simp
        · subst hcs
          cases ok with
          | false => simp
          | true => rcases hp with h1 | h1 <;> simp [h1]

/-- C4 witness: a response whose content parses to a non-array value falls
back to the keyword top 10. -/
theorem searchArticles_fallback_on_rerank_failure_witness :
    searchArticles (fun _ => ParsedJson.nonArray) "password" [pwGuide]
      ⟨true, "https://api.example", "key", "gpt-3.5-turbo"⟩
      (FetchOutcome.response true (some "not an array")) =
      (keywordSearch "password" [pwGuide]).take 10 :=
  searchArticles_fallback_on_rerank_failure _ "password" [pwGuide] _ _
    (by decide) rfl (by decide) (by decide)
    (Or.inr (Or.inr ⟨"not an array", rfl, Or.inr rfl⟩))

/-! ### C1 — score of the spec's composition example -/

/-- Evaluation of the scorer on the example guide: the tag containing the
query contributes 5 for the substring match plus 2 for the (tag, token)
bonus, which the source applies for every query token regardless of how
many tokens the query has. -/
lemma score_pwGuide :
    calculateRelevanceScore "password" (tokenize "password") pwGuide = 28 := by
  have ht : tokenize "password" = ["password"] := by decide
  have hc : countOccs "password".data
      (lowerS (stripHtml "<p>password password</p>")).data = 2 := by decide
  simp +decide [calculateRelevanceScore, stepScore, pwGuide, ht, hc]
  norm_num [min_def]

/-- C1 counterexample: the example guide does not score 26. -/
theorem pwGuide_score_ne_26 :
    calculateRelevanceScore "password" (tokenize "password") pwGuide ≠ 26 := by
  rw [score_pwGuide]
  norm_num

/-- C1 (amended): the example guide scores exactly 28 for query "password"
(title match +10, title-starts-with +5, tag substring match +5, per-(tag,
token) bonus +2 — applied by the source for single-token queries as well —,
summary match +4, step body match +1, occurrence bonus +1). -/
theorem pwGuide_score_eq_28 :
    calculateRelevanceScore "password" (tokenize "password") pwGuide = 28 :=
  score_pwGuide

/-! ### C2 — the per-(tag, token) bonus is unconditional -/

/-- Evaluation of the scorer on a guide whose only populated field is one
matching tag, under the single-token query "password". -/
lemma score_tagOnlyGuide :
    calculateRelevanceScore "password" (tokenize "password") tagOnlyGuide = 7 := by
  have ht : tokenize "password" = ["password"] := by decide
  simp +decide [calculateRelevanceScore, stepScore, tagOnlyGuide, ht]
  norm_num

/-- C2 counterexample: for the single-token query "password" and a guide
whose only populated field is the tag "password", the tag contribution is
not 5: the total score is 7, because the per-(tag, token) bonus of 2 is
added even though the query has a single token. -/
theorem tagOnlyGuide_score_ne_5 :
    calculateRelevanceScore "password" (tokenize "password") tagOnlyGuide = 7 ∧
    calculateRelevanceScore "password" (tokenize "password") tagOnlyGuide ≠ 5 := by
  refine ⟨score_tagOnlyGuide, ?_⟩
  rw [score_tagOnlyGuide]
  norm_num

/-- C2 (amended): for every query and token list, each tag contributes 5
when it contains the query substring plus 2 per query token it contains,
with the per-(tag, token) bonus applied regardless of how many tokens the
query has. -/
theorem tag_token_bonus_all_queries (query : String) (queryTokens : List String)
    (tags : List String) (hq : query ≠ "") (ht : ∀ t ∈ queryTokens, t ≠ "") :
    calculateRelevanceScore query queryTokens
      { id := "", title := "", summary := "", tags := tags, steps := [],
        content := "" } =
    (tags.map (fun tag =>
      (if containsS (lowerS tag) query then (5 : ℚ) else 0) +
      2 * ((queryTokens.filter (fun token => containsS (lowerS tag) token)).length : ℚ))).sum := by
  have hcq : containsS "" query = false := containsS_empty_left hq
  simp only [calculateRelevanceScore, show lowerS "" = "" from rfl, hcq,
    Bool.false_eq_true, if_false, List.map_nil, List.sum_nil]
  by_cases hl : queryTokens.length > 1
  · rw [if_pos hl]
    have hz : (queryTokens.map (fun token =>
        (if containsS "" token then (1 : ℚ) else 0) +
        (if containsS "" token then (0.5 : ℚ) else 0) +
        (((List.nil (α := Step)).filter (fun step =>
            containsS (lowerS (stripHtml step.bodyHtml)) token)).length : ℚ) * 0.3)).sum
        = 0 := by
      apply List.sum_eq_zero
      intro x hx
      rcases List.mem_map.mp hx with ⟨t, htm, rfl⟩
      simp [containsS_empty_left (ht t htm)]
    rw [hz]
    ring
  · rw [if_neg hl]
    ring

/-- C2 witness: the amended statement evaluated on the single-token query
"password" and the single tag "password" gives 5 + 2 = 7. -/
theorem tag_token_bonus_all_queries_witness :
    calculateRelevanceScore "password" ["password"]
      { id := "", title := "", summary := "", tags := ["password"],
        steps := [], content := "" } = 7 := by
  rw [tag_token_bonus_all_queries "password" ["password"] ["password"]
    (by decide) (by decide)]
  simp +decide
  norm_num

/-! ### C6 — keyword ranking is sorted, positive, and stable -/

/-- Unfolding of `keywordSearch` on a non-empty query and collection: the
kept articles in input order, scored, stably sorted by descending score,
then projected back to articles. -/
lemma keywordSearch_unfold (query : String) (articles : List Guide)
    (hq : trimS query ≠ "") (hA : ¬ articles.isEmpty = true) :
    keywordSearch query articles =
      (((articles.filter (fun a => decide (0 < scoreOf query a))).map
        (fun a => (⟨a, scoreOf query a,
          getHighlights (trimS (lowerS query)) a⟩ : ScoredGuide))).mergeSort
          (fun x y => decide (y.score ≤ x.score))).map (·.article) := by
  rw [keywordSearch, if_neg hq, if_neg hA]
  show ((articles.filterMap (fun article =>
      if 0 < scoreOf query article then
        some (⟨article, scoreOf query article,
          getHighlights (trimS (lowerS query)) article⟩ : ScoredGuide)
      else none)).mergeSort (fun x y => decide (y.score ≤ x.score))).map (·.article) = _
  rw [filterMap_scored]

/-- C6: on every non-empty query the ranked output is sorted by
non-increasing score, only positively scored guides appear, and for every
score value the guides carrying it appear in their input order (stability,
stated as a filter identity). -/
theorem keywordSearch_sorted_positive_stable (query : String)
    (articles : List Guide) (hq : trimS query ≠ "") :
    (keywordSearch query articles).Pairwise
      (fun a b => scoreOf query b ≤ scoreOf query a) ∧
    (∀ a ∈ keywordSearch query articles, 0 < scoreOf query a) ∧
    (∀ s : ℚ, (keywordSearch query articles).filter
        (fun a => decide (scoreOf query a = s)) =
      articles.filter (fun a =>
        decide (scoreOf query a = s) && decide (0 < scoreOf query a))) := by
  by_cases hA : articles.isEmpty
  · have hnil := keywordSearch_nil_of_empty query articles hA
    have ha : articles = [] := List.isEmpty_iff.mp hA
    subst ha
    exact ⟨by simp [hnil], by simp [hnil], by intro s; simp [hnil]⟩
  · have hks := keywordSearch_unfold query articles hq hA
    set le : ScoredGuide → ScoredGuide → Bool :=
      fun x y => decide (y.score ≤ x.score) with hle
    set L := (articles.filter (fun a => decide (0 < scoreOf query a))).map
        (fun a => (⟨a, scoreOf query a,
          getHighlights (trimS (lowerS query)) a⟩ : ScoredGuide)) with hL
    have htrans : ∀ a b c : ScoredGuide, le a b → le b c → le a c := by
      intro a b c hab hbc
      simp only [hle, decide_eq_true_eq] at hab hbc ⊢
      exact le_trans hbc hab
    have htotal : ∀ a b : ScoredGuide, le a b || le b a := by
      intro a b
      simp only [hle, Bool.or_eq_true, decide_eq_true_eq]
      exact le_total b.score a.score
    have hmem : ∀ x ∈ L.mergeSort le,
        x.score = scoreOf query x.article ∧ 0 < scoreOf query x.article := by
      intro x hx
      have hxm : x ∈ L := List.mem_mergeSort.mp hx
      rw [hL] at hxm
      rcases List.mem_map.mp hxm with ⟨a, ha, rfl⟩
      refine ⟨rfl, ?_⟩
      have := List.of_mem_filter ha
      simpa using this
    refine ⟨?_, ?_, ?_⟩
    · rw [hks, List.pairwise_map]
      have hs := List.sorted_mergeSort htrans htotal L
      refine hs.imp_of_mem ?_
      intro a b ha hb hr
      have h1 := (hmem a ha).1
      have h2 := (hmem b hb).1
      simp only [hle, decide_eq_true_eq] at hr
      rw [← h1, ← h2]
      exact hr
    · intro a ha
      rw [hks] at ha
      rcases List.mem_map.mp ha with ⟨x, hx, rfl⟩
      exact (hmem x hx).2
    · intro s
      rw [hks, List.filter_map]
      have h1 : (L.mergeSort le).filter
          ((fun a => decide (scoreOf query a = s)) ∘ (·.article)) =
          (L.mergeSort le).filter (fun x => decide (x.score = s)) := by
        apply List.filter_congr
        intro x hx
        have := (hmem x hx).1
        simp [Function.comp, this]
      rw [h1]
      rw [filter_mergeSort_stable le htrans htotal _ ?hp]
      case hp =>
        intro a b hpa hpb
        simp only [decide_eq_true_eq] at hpa hpb
        simp only [hle, hpa, hpb, decide_eq_true_eq]
        exact le_refl s
      rw [hL, List.filter_map, List.map_map]
      have h2 : ((fun x : ScoredGuide => decide (x.score = s)) ∘
          (fun a => (⟨a, scoreOf query a,
            getHighlights (trimS (lowerS query)) a⟩ : ScoredGuide))) =
          fun a => decide (scoreOf query a = s) := rfl
      rw [h2]
      have h3 : ((fun x : ScoredGuide => x.article) ∘
          (fun a => (⟨a, scoreOf query a,
            getHighlights (trimS (lowerS query)) a⟩ : ScoredGuide))) =
          fun a : Guide => a := rfl
      rw [h3, List.map_id']
      rw [List.filter_filter]

/-- C6 witness: the ranked output for "password" over a one-guide
collection, with the stability identity instantiated at score 28. -/
theorem keywordSearch_sorted_positive_stable_witness :
    (keywordSearch "password" [pwGuide]).filter
        (fun a => decide (scoreOf "password" a = 28)) =
      [pwGuide].filter (fun a =>
        decide (scoreOf "password" a = 28) && decide (0 < scoreOf "password" a)) :=
  (keywordSearch_sorted_positive_stable "password" [pwGuide] (by decide)).2.2 28

/-! ### C3 — rerank reorder is a permutation of the candidates -/

/-- Inserting a fresh key into the id map appends the entry. -/
lemma mapSet_of_not_mem (m : List (String × Guide)) (k : String) (v : Guide)
    (h : ∀ e ∈ m, e.1 ≠ k) : mapSet m k v = m ++ [(k, v)] := by
  rw [mapSet, if_neg]
  intro hc
  rcases List.any_eq_true.mp hc with ⟨e, hem, hbeq⟩
  exact h e hem (by simpa using hbeq)

/-- Folding map insertion over guides with pairwise distinct ids and fresh
keys appends the entries in order. -/
lemma foldl_mapSet (gs : List Guide) :
    ∀ m : List (String × Guide),
      (∀ a ∈ gs, ∀ e ∈ m, e.1 ≠ a.id) → (gs.map Guide.id).Nodup →
      gs.foldl (fun m a => mapSet m a.id a) m = m ++ gs.map (fun a => (a.id, a)) := by
  induction gs with
  | nil => intro m _ _; simp
  | cons a rest ih =>
    intro m hdisj hnd
    rw [List.foldl_cons,
      mapSet_of_not_mem m a.id a (fun e he => hdisj a (List.mem_cons_self a rest) e he)]
    rw [List.map_cons] at hnd
    have hna : a.id ∉ rest.map Guide.id := (List.nodup_cons.mp hnd).1
    have hnd' : (rest.map Guide.id).Nodup := (List.nodup_cons.mp hnd).2
    rw [ih (m ++ [(a.id, a)]) ?_ hnd']
    · simp
    · intro b hb e he
      rcases List.mem_append.mp he with h1 | h1
      · exact hdisj b (List.mem_cons_of_mem a hb) e h1
      · rcases List.mem_singleton.mp h1 with rfl
        show a.id ≠ b.id
        intro hcontra
        exact hna (hcontra ▸ List.mem_map_of_mem Guide.id hb)

/-- With pairwise distinct guide ids, the JS map construction is just the
association list of (id, guide) pairs in input order. -/
lemma mkIdMap_of_nodup (gs : List Guide) (h : (gs.map Guide.id).Nodup) :
    mkIdMap gs = gs.map (fun a => (a.id, a)) := by
  have hfold := foldl_mapSet gs [] (by simp) h
  simpa [mkIdMap] using hfold

/-- A find over a list whose prefix fails the predicate returns the first
satisfying element. -/
lemma find?_append_first {α : Type} (p : α → Bool) (l₁ : List α) (a : α)
    (l₂ : List α) (h₁ : ∀ b ∈ l₁, ¬ p b) (h₂ : p a) :
    (l₁ ++ a :: l₂).find? p = some a := by
  induction l₁ with
  | nil => simp [List.find?_cons_of_pos _ h₂]
  | cons x xs ih =>
    have hx : ¬ p x = true := h₁ x (List.mem_cons_self _ _)
    rw [List.cons_append, List.find?_cons_of_neg _ hx]
    exact ih (fun b hb => h₁ b (List.mem_cons_of_mem x hb))

/-- The picked articles together with the values remaining in the map are a
permutation of the map's values. -/
lemma pickByIds_append_perm (ids : List String) :
    ∀ m : List (String × Guide), (m.map Prod.fst).Nodup →
      List.Perm
        ((pickByIds ids m).1 ++ (pickByIds ids m).2.map Prod.snd)
        (m.map Prod.snd) := by
  induction ids with
  | nil => intro m _; simp [pickByIds]
  | cons id rest ih =>
    intro m hnd
    cases hf : m.find? (fun e => e.1 == id) with
    | none =>
      simp only [pickByIds, hf]
      exact ih m hnd
    | some e =>
      simp only [pickByIds, hf]
      have hee : e ∈ m := List.mem_of_find?_eq_some hf
      obtain ⟨a, l₁, l₂, hl₁, hpa, hm, herase⟩ :=
        List.exists_of_eraseP hee (List.find?_some hf)
      have he : e = a := by
        have hfirst := find?_append_first (fun e => e.1 == id) l₁ a l₂ hl₁ hpa
        rw [hm, hfirst] at hf
        exact (Option.some.inj hf).symm
      subst he
      rw [herase]
      have hnd' : ((l₁ ++ l₂).map Prod.fst).Nodup := by
        rw [hm] at hnd
        exact hnd.sublist
          (((List.sublist_cons_self e l₂).append_left l₁).map Prod.fst)
      have hih := ih (l₁ ++ l₂) hnd'
      have step1 : (e.2 :: (pickByIds rest (l₁ ++ l₂)).1) ++
            (pickByIds rest (l₁ ++ l₂)).2.map Prod.snd
          = e.2 :: ((pickByIds rest (l₁ ++ l₂)).1 ++
            (pickByIds rest (l₁ ++ l₂)).2.map Prod.snd) := by simp
      have step2 := hih.cons e.2
      have step3 : List.Perm (e.2 :: (l₁ ++ l₂).map Prod.snd)
          (l₁.map Prod.snd ++ e.2 :: l₂.map Prod.snd) := by
        have hmid : List.Perm (l₁.map Prod.snd ++ e.2 :: l₂.map Prod.snd)
            (e.2 :: (l₁.map Prod.snd ++ l₂.map Prod.snd)) := List.perm_middle
        simpa using hmid.symm
      have step4 : l₁.map Prod.snd ++ e.2 :: l₂.map Prod.snd = m.map Prod.snd := by
        rw [hm]
        simp
      rw [step1]
      exact step4 ▸ (step2.trans step3)

/-- The map entries left after the walk are exactly the candidates whose id
the model never mentioned, in their original order. -/
lemma pickByIds_snd_eq (ids : List String) :
    ∀ m : List (String × Guide), (m.map Prod.fst).Nodup →
      (pickByIds ids m).2 = m.filter (fun e => !(ids.contains e.1)) := by
  induction ids with
  | nil =>
    intro m _
    simp [pickByIds]
  | cons id rest ih =>
    intro m hnd
    cases hf : m.find? (fun e => e.1 == id) with
    | none =>
      simp only [pickByIds, hf]
      rw [ih m hnd]
      apply List.filter_congr
      intro e hem
      have hne : (e.1 == id) = false := by
        have hn := List.find?_eq_none.mp hf e hem
        simpa using hn
      have hneq : ¬ e.1 = id := by simpa using hne
      simp [List.contains_cons, hne, hneq]
    | some e =>
      simp only [pickByIds, hf]
      have hee : e ∈ m := List.mem_of_find?_eq_some hf
      obtain ⟨a, l₁, l₂, hl₁, hpa, hm, herase⟩ :=
        List.exists_of_eraseP hee (List.find?_some hf)
      have hnd' : ((l₁ ++ l₂).map Prod.fst).Nodup := by
        rw [hm] at hnd
        exact hnd.sublist
          (((List.sublist_cons_self a l₂).append_left l₁).map Prod.fst)
      rw [herase, ih (l₁ ++ l₂) hnd', hm]
      have haid : a.1 = id := by simpa using hpa
      have hkey : ∀ e ∈ l₁ ++ l₂, ¬ e.1 = id := by
        rw [hm] at hnd
        intro e hel
        have hmap : (l₁.map Prod.fst ++ a.1 :: l₂.map Prod.fst).Nodup := by
          simpa using hnd
        have hnot : a.1 ∉ l₁.map Prod.fst ++ l₂.map Prod.fst :=
          (List.nodup_cons.mp (List.nodup_middle.mp hmap)).1
        have hemem : e.1 ∈ l₁.map Prod.fst ++ l₂.map Prod.fst := by
          rcases List.mem_append.mp hel with h1 | h1
          · exact List.mem_append.mpr (Or.inl (List.mem_map_of_mem Prod.fst h1))
          · exact List.mem_append.mpr (Or.inr (List.mem_map_of_mem Prod.fst h1))
        exact fun hc => hnot (by rw [haid, ← hc]; exact hemem)
      rw [List.filter_append, List.filter_append, List.filter_cons]
      have hdrop : (!(List.contains (id :: rest) a.1)) = false := by
        simp [List.contains_cons, haid]
      rw [hdrop]
      simp only [Bool.false_eq_true, if_false]
      congr 1
      · apply List.filter_congr
        intro e hem
        simp [List.contains_cons, hkey e (List.mem_append.mpr (Or.inl hem))]
      · apply List.filter_congr
        intro e hem
        simp [List.contains_cons, hkey e (List.mem_append.mpr (Or.inr hem))]

/-- C3: with pairwise distinct candidate ids, the rerank reorder is a
permutation of the candidate set; it consists of the picked articles in the
model's order followed by every unmentioned candidate in original order; and
on candidates a, b, c with model response ["c", "a"] it yields [c, a, b]. -/
theorem reorderByIds_perm_of_nodup (candidates : List Guide) (ids : List String)
    (h : (candidates.map Guide.id).Nodup) :
    List.Perm (reorderByIds candidates ids) candidates ∧
    reorderByIds candidates ids =
      (pickByIds ids (mkIdMap candidates)).1 ++
        candidates.filter (fun a => !(ids.contains a.id)) ∧
    reorderByIds [guideA, guideB, guideC] ["c", "a"] =
      [guideC, guideA, guideB] := by
  have hmk := mkIdMap_of_nodup candidates h
  have hkeys : ((candidates.map (fun a => (a.id, a))).map Prod.fst).Nodup := by
    rw [List.map_map]
    exact h
  refine ⟨?_, ?_, by decide⟩
  · rw [reorderByIds, hmk]
    have hp := pickByIds_append_perm ids (candidates.map (fun a => (a.id, a))) hkeys
    rw [List.map_map,
      show Prod.snd ∘ (fun a : Guide => (a.id, a)) = id from rfl, List.map_id] at hp
    exact hp
  · rw [reorderByIds, hmk]
    congr 1
    rw [pickByIds_snd_eq ids (candidates.map (fun a => (a.id, a))) hkeys]
    rw [List.filter_map, List.map_map]
    simp [Function.comp_def]

/-- C3 witness: the permutation statement instantiated on the three-guide
example with distinct ids. -/
theorem reorderByIds_perm_of_nodup_witness :
    List.Perm (reorderByIds [guideA, guideB, guideC] ["c", "a"])
      [guideA, guideB, guideC] :=
  (reorderByIds_perm_of_nodup [guideA, guideB, guideC] ["c", "a"] (by decide)).1

/-! ### C8 — step-body occurrence bonus and literal-substring counting -/

/-- C8: escaping makes the query a literal pattern — the escaped character
list reads back as exactly the original literal string, so metacharacters in
the query never alter matching — and, on a guide reduced to one step body,
the scorer's step contribution is 1 plus `min (occurrences * 0.5) 3` for the
count of non-overlapping literal occurrences in the markup-stripped
lowercased body, and 0 when the body does not contain the query. -/
theorem stepBody_occurrence_bonus :
    (∀ l : List Char, litPatternChars (escapeRegexChars l) = some l) ∧
    (∀ (query bodyHtml : String) (queryTokens : List String), query ≠ "" →
      queryTokens.length ≤ 1 →
      calculateRelevanceScore query queryTokens
        { id := "", title := "", summary := "", tags := [],
          steps := [⟨"", bodyHtml⟩], content := "" } =
      (if containsS (lowerS (stripHtml bodyHtml)) query then
        1 + min ((countOccs query.data (lowerS (stripHtml bodyHtml)).data : ℚ) * 0.5) 3
       else 0)) := by
  constructor
  · intro l
    induction l with
    | nil => rfl
    | cons c rest ih =>
      by_cases hm : isRegexMeta c
      · rw [escapeRegexChars, if_pos hm, litPatternChars.eq_def]
        simp [ih]
      · have hc : ¬ c = '\\' := by
          intro hcc
          apply hm
          rw [hcc]
          rfl
        rw [escapeRegexChars, if_neg hm, litPatternChars.eq_def]
        simp [hc, hm, ih]
  · intro query bodyHtml queryTokens hq hlen
    have hcq : containsS "" query = false := containsS_empty_left hq
    simp only [calculateRelevanceScore, stepScore, show lowerS "" = "" from rfl,
      hcq, Bool.false_eq_true, if_false, List.map_nil, List.sum_nil,
      List.map_cons, List.sum_cons]
    rw [if_neg (by omega : ¬ queryTokens.length > 1)]
    ring

/-- C8 witness: the escape of "a.b" reads back literally, and a two-
occurrence body receives bonus `min (2 * 0.5) 3`. -/
theorem stepBody_occurrence_bonus_witness :
    litPatternChars (escapeRegexChars "a.b".data) = some "a.b".data ∧
    calculateRelevanceScore "ab" [] 
      { id := "", title := "", summary := "", tags := [],
        steps := [⟨"", "<p>ab ab</p>"⟩], content := "" } =
      (if containsS (lowerS (stripHtml "<p>ab ab</p>")) "ab" then
        1 + min ((countOccs "ab".data (lowerS (stripHtml "<p>ab ab</p>")).data : ℚ) * 0.5) 3
       else 0) :=
  ⟨stepBody_occurrence_bonus.1 "a.b".data,
   stepBody_occurrence_bonus.2 "ab" "<p>ab ab</p>" [] (by decide) (by decide)⟩

/-! ### C9 — content snippet around the first match -/

/-- A found first-occurrence index is bounded by the haystack length. -/
lemma firstIdx_le_length (needle : List Char) :
    ∀ (hay : List Char) (i : Nat), firstIdx needle hay = some i → i ≤ hay.length := by
  intro hay
  induction hay with
  | nil =>
    intro i h
    rw [firstIdx] at h
    by_cases hn : needle.isEmpty
    · rw [if_pos hn] at h
      cases h
      simp
    · rw [if_neg hn] at h
      cases h
  | cons c rest ih =>
    intro i h
    rw [firstIdx] at h
    by_cases hp : needle.isPrefixOf (c :: rest)
    · rw [if_pos hp] at h
      cases h
      simp
    · rw [if_neg hp] at h
      rcases Option.map_eq_some'.mp h with ⟨j, hj, rfl⟩
      have hle := ih j hj
      simp only [List.length_cons]
      omega

/-- The substring the source cuts around the match equals the claim's three
context pieces: up to 40 characters before the match, the match, up to 40
characters after it. -/
lemma snippet_take_eq (q content : List Char) (index : Nat)
    (hidx : index ≤ content.length) :
    (content.drop (index - 40)).take
        (min content.length (index + q.length + 40) - (index - 40)) =
    (content.take index).drop (index - 40) ++
      ((content.drop index).take q.length ++
       (content.drop (index + q.length)).take 40) := by
  have h1 : (content.take index).drop (index - 40) =
      (content.drop (index - 40)).take (index - (index - 40)) :=
    List.drop_take index (index - 40) content
  have h2 : (content.drop index).take q.length ++
      (content.drop (index + q.length)).take 40 =
      (content.drop index).take (q.length + 40) := by
    rw [List.take_add, List.drop_drop]
  rw [h1, h2]
  have h3 : (content.drop (index - 40)).take ((index - (index - 40)) + (q.length + 40)) =
      (content.drop (index - 40)).take (index - (index - 40)) ++
        ((content.drop (index - 40)).drop (index - (index - 40))).take (q.length + 40) :=
    List.take_add _ _ _
  rw [List.drop_drop] at h3
  have h4 : (index - 40) + (index - (index - 40)) = index := by omega
  rw [h4] at h3
  rw [← h3]
  apply List.take_eq_take.mpr
  rw [List.length_drop]
  omega

/-- The full snippet computed by `getHighlights` — context cut plus the two
conditional ellipsis markers — is the snippet the claim describes. -/
lemma snippet_code_eq_spec (q content : List Char) (index : Nat)
    (hidx : index ≤ content.length) :
    (if min content.length (index + q.length + 40) < content.length then
       (if 0 < index - 40 then
          '.' :: '.' :: '.' ::
            ((content.drop (index - 40)).take
              (min content.length (index + q.length + 40) - (index - 40)))
        else
          (content.drop (index - 40)).take
            (min content.length (index + q.length + 40) - (index - 40))) ++
         ['.', '.', '.']
     else
       (if 0 < index - 40 then
          '.' :: '.' :: '.' ::
            ((content.drop (index - 40)).take
              (min content.length (index + q.length + 40) - (index - 40)))
        else
          (content.drop (index - 40)).take
            (min content.length (index + q.length + 40) - (index - 40)))) =
    snippetSpec q content index := by
  rw [snippet_take_eq q content index hidx, snippetSpec]
  by_cases hpre : 40 < index
  · by_cases hpost : index + q.length + 40 < content.length
    · rw [if_pos (show 0 < index - 40 by omega),
        if_pos (show min content.length (index + q.length + 40) < content.length by omega),
        if_pos hpre, if_pos hpost]
      simp
    · rw [if_pos (show 0 < index - 40 by omega),
        if_neg (show ¬ min content.length (index + q.length + 40) < content.length by omega),
        if_pos hpre, if_neg hpost]
      simp
  · by_cases hpost : index + q.length + 40 < content.length
    · rw [if_neg (show ¬ 0 < index - 40 by omega),
        if_pos (show min content.length (index + q.length + 40) < content.length by omega),
        if_neg hpre, if_pos hpost]
      simp
    · rw [if_neg (show ¬ 0 < index - 40 by omega),
        if_neg (show ¬ min content.length (index + q.length + 40) < content.length by omega),
        if_neg hpre, if_neg hpost]
      simp

/-- C9: whenever the lowercased content of a guide contains the normalized
query (first occurrence at `index`), `getHighlights` emits exactly one
content snippet, and it consists of up to 40 characters of context on each
side of the first match, with an ellipsis marker prefixed exactly when text
before the match was cut off and suffixed exactly when text after it was. -/
theorem getHighlights_content_snippet (query : String) (article : Guide)
    (index : Nat)
    (h : firstIdx query.data (lowerS article.content).data = some index) :
    (getHighlights query article).filter
        (fun hl => decide (hl.field = HighlightField.content)) =
      [⟨HighlightField.content,
        (⟨snippetSpec query.data article.content.data index⟩ : String)⟩] := by
  have hlen : (lowerS article.content).data.length = article.content.data.length := by
    simp [lowerS]
  have hidx : index ≤ article.content.data.length := by
    have hle := firstIdx_le_length query.data (lowerS article.content).data index h
    omega
  have hcore := snippet_code_eq_spec query.data article.content.data index hidx
  simp only [getHighlights, h]
  rw [List.filter_append]
  have htitle : (if containsS (lowerS article.title) query then
      [(⟨HighlightField.title, article.title⟩ : Highlight)] else []).filter
      (fun hl => decide (hl.field = HighlightField.content)) = [] := by
    by_cases ht : containsS (lowerS article.title) query
    · rw [if_pos ht]
      simp
    · rw [if_neg ht]
      rfl
  rw [htitle, List.nil_append]
  simp only [List.filter_cons, List.filter_nil, decide_eq_true_eq]
  rw [if_pos trivial]
  rw [hcore]

/-- C9 witness: for query "pass" and content "xyz pass abc" the emitted
snippet is the whole content with no ellipsis markers. -/
theorem getHighlights_content_snippet_witness :
    (getHighlights "pass" contentGuide).filter
        (fun hl => decide (hl.field = HighlightField.content)) =
      [⟨HighlightField.content,
        (⟨snippetSpec "pass".data "xyz pass abc".data 4⟩ : String)⟩] :=
  getHighlights_content_snippet "pass" contentGuide 4 (by decide)
